import Mathlib

/-!
# Verification of the SAMUDRA float-ingestion core

A shallow embedding, in Lean 4, of the data-processing core of `app.js`:
the numeric coercion (`toNumber`), the case-insensitive alias resolution
(the row-local `get` closure), the per-platform aggregation map, the cycle
segmentation of `finalizeFloatsFromMap`, the source-kind tagging of
`loadFloatsStreaming`, and the single-flight aggregation cache
(`ensureCache`).  JavaScript numbers are idealized as rationals (`ℚ`);
`null`/missing numeric values are `Option ℚ` with `none`; JavaScript's
implicit coercion of `null` to `0` in arithmetic is `jsNum`, and its
truthiness test on numbers is `truthy` (false exactly on `null` and `0`).
-/

namespace Samudra

/-- JavaScript strings, as character lists (so that per-character operations
such as lowercasing stay computable). -/
abbrev JStr := List Char

/-- Coercion of a possibly-null number used where JavaScript arithmetic
coerces `null` to `0` (e.g. `entry.juld - lastJuld` with `entry.juld = null`). -/
def jsNum (v : Option ℚ) : ℚ := v.getD 0

/-- JavaScript truthiness of a possibly-null number: `null` and `0` are falsy,
every other number is truthy (`NaN` cannot occur here: `toNumber` never
produces it). -/
def truthy (v : Option ℚ) : Bool :=
  match v with
  | none => false
  | some x => decide (x ≠ 0)

/-- One normalized measurement, as built in the row callback of
`loadFloatsStreaming` (`app.js` lines 278–290).  `latitude`/`longitude` are
required (the row is dropped otherwise), the other numeric fields may be
`null`.  `dateIso` is modelled by the underlying UTC instant in milliseconds
(the source stores its ISO-8601 rendering, which determines and is determined
by that instant). -/
structure Entry where
  latitude : ℚ
  longitude : ℚ
  pres : Option ℚ
  juld : Option ℚ
  temp : Option ℚ
  psal : Option ℚ
  doxy : Option ℚ
  nitrate : Option ℚ
  ph : Option ℚ
  organization : JStr
  dateIso : Option ℤ
deriving DecidableEq

instance : Inhabited Entry :=
  ⟨⟨0, 0, none, none, none, none, none, none, none, [], none⟩⟩

/-- Model of `Math.abs` on (idealized) JavaScript numbers. -/
def jsAbs (q : ℚ) : ℚ := if q < 0 then -q else q

/-- Time gap used by the segmenter: `lastJuld ? Math.abs(entry.juld - lastJuld) : 0`
(`app.js` line 132).  Note the truthiness test: a previous `juld` of `null`
or `0` yields a gap of `0`. -/
def timeGapOf (lastJuld : Option ℚ) (e : Entry) : ℚ :=
  if truthy lastJuld then jsAbs (jsNum e.juld - jsNum lastJuld) else 0

/-- Pressure gap used by the segmenter: `lastPres ? Math.abs(entry.pres - lastPres) : 0`
(`app.js` line 133). -/
def presGapOf (lastPres : Option ℚ) (e : Entry) : ℚ :=
  if truthy lastPres then jsAbs (jsNum e.pres - jsNum lastPres) else 0

/-- Cycle-break decision for a non-first entry
(`app.js` line 136: `timeGap > 1 || (presGap > 50 && entry.pres < lastPres)`). -/
def startsNewCycle (lastJuld lastPres : Option ℚ) (e : Entry) : Bool :=
  decide (1 < timeGapOf lastJuld e) ||
    (decide (50 < presGapOf lastPres e) && decide (jsNum e.pres < jsNum lastPres))

/-- The segmentation walk of `finalizeFloatsFromMap` (`app.js` lines 131–151),
after the first entry has opened cycle 1: `lastJuld`/`lastPres` are the
previous entry's values, `cur` the open cycle, `acc` the closed cycles. -/
def segmentGo (lastJuld lastPres : Option ℚ) (cur : List Entry)
    (acc : List (List Entry)) : List Entry → List (List Entry)
  | [] => if cur.isEmpty then acc else acc ++ [cur]
  | e :: rest =>
    if startsNewCycle lastJuld lastPres e then
      segmentGo e.juld e.pres [e] (if cur.isEmpty then acc else acc ++ [cur]) rest
    else
      segmentGo e.juld e.pres (cur ++ [e]) acc rest

/-- Cycle segmentation of a (sorted) entry list (`app.js` lines 126–151).
The first entry always starts cycle 1 (`index === 0` branch). -/
def segmentCycles : List Entry → List (List Entry)
  | [] => []
  | e :: rest => segmentGo e.juld e.pres [e] [] rest

/-- Sort comparator of `finalizeFloatsFromMap` (`app.js` lines 119–123):
ascending by `juld`, with `null` sorting as `-Infinity` (first); two `null`s
compare equal (`-Infinity - -Infinity` is `NaN`, treated as equal). -/
def juldLe (a b : Entry) : Bool :=
  match a.juld, b.juld with
  | none, _ => true
  | some _, none => false
  | some x, some y => decide (x ≤ y)

/-- The stable ascending-by-time sort applied to a bucket's entries. -/
def sortEntries (l : List Entry) : List Entry := l.mergeSort juldLe

/-- Per-platform accumulator (`app.js` line 291):
`{ entries: [], type: sourceType }`. -/
structure Bucket where
  entries : List Entry
  type : String
deriving DecidableEq

/-- Projection applied to entries inside `cycles` (`app.js` lines 188–198):
all measurement fields are kept; `organization` and `dateIso` are retained
only in `history`/`latest`. -/
structure CycleEntry where
  latitude : ℚ
  longitude : ℚ
  pres : Option ℚ
  juld : Option ℚ
  temp : Option ℚ
  psal : Option ℚ
  doxy : Option ℚ
  nitrate : Option ℚ
  ph : Option ℚ
deriving DecidableEq

/-- The field-by-field copy used for entries of `cycles`. -/
def cycleView (e : Entry) : CycleEntry :=
  { latitude := e.latitude, longitude := e.longitude, pres := e.pres,
    juld := e.juld, temp := e.temp, psal := e.psal, doxy := e.doxy,
    nitrate := e.nitrate, ph := e.ph }

/-- The finalized, externally visible record (`app.js` lines 171–199).
`latest` is `cycles[cycles.length-1][…length-1]`, which is undefined (a crash
in the source) for an empty bucket, hence `Option`. -/
structure FloatRecord where
  id : JStr
  type : String
  latest : Option Entry
  history : List Entry
  cycles : List (List CycleEntry)

/-- Finalization of one bucket (`finalizeFloatsFromMap` body for one map
entry, `app.js` lines 117–199): sort, segment, project. -/
def finalizeBucket (platform : JStr) (b : Bucket) : FloatRecord :=
  let sorted := sortEntries b.entries
  let cycles := segmentCycles sorted
  { id := platform
    type := if b.type = "" then "core" else b.type
    latest := (cycles.getLast?.getD []).getLast?
    history := sorted
    cycles := cycles.map (fun c => c.map cycleView) }

theorem segmentGo_flatten (l : List Entry) : ∀ (lj lp : Option ℚ)
    (cur : List Entry) (acc : List (List Entry)),
    (segmentGo lj lp cur acc l).flatten = acc.flatten ++ cur ++ l := by
  induction l with
  | nil =>
    intro lj lp cur acc
    by_cases h : cur.isEmpty
    · have hc : cur = [] := List.isEmpty_iff.mp h
      simp [segmentGo, h, hc]
    · simp [segmentGo, h]
  | cons e rest ih =>
    intro lj lp cur acc
    by_cases h : startsNewCycle lj lp e
    · by_cases hc : cur.isEmpty
      · have hc' : cur = [] := List.isEmpty_iff.mp hc
        simp [segmentGo, h, hc, ih, hc']
      · simp [segmentGo, h, hc, ih]
    · simp [segmentGo, h, ih]

theorem segmentCycles_flatten (l : List Entry) : (segmentCycles l).flatten = l := by
  cases l with
  | nil => rfl
  | cons e rest =>
    show (segmentGo e.juld e.pres [e] [] rest).flatten = e :: rest
    rw [segmentGo_flatten]
    rfl

/-- Claim C1: for every bucket, the record's `cycles`, flattened by
concatenating the cycles in order, reproduce the `history` sequence exactly
(entrywise under the `cycles` field projection): the segmentation is a
partition of the sorted entries — none dropped, none duplicated, same
order. -/
theorem cycles_partition_history (platform : JStr) (b : Bucket) :
    ((finalizeBucket platform b).cycles).flatten
      = ((finalizeBucket platform b).history).map cycleView ∧
    (segmentCycles (sortEntries b.entries)).flatten = sortEntries b.entries ∧
    (finalizeBucket platform b).history = sortEntries b.entries := by
  refine ⟨?_, segmentCycles_flatten _, rfl⟩
  show (List.map (List.map cycleView) (segmentCycles (sortEntries b.entries))).flatten
      = (sortEntries b.entries).map cycleView
  rw [← List.map_flatten, segmentCycles_flatten]

/-! ## Cycle-break rule: spec reading vs. code (claims C2, C10) -/

/-- Cycle-break rule as the spec words it (refinement reference, not the
code): a gap check is evaluated whenever a previous value exists. -/
def specStartsNew (p e : Entry) : Bool :=
  (match p.juld with
   | none => false
   | some pj => decide (1 < jsAbs (jsNum e.juld - pj))) ||
  (match p.pres with
   | none => false
   | some pp => decide (50 < jsAbs (jsNum e.pres - pp)) && decide (jsNum e.pres < pp))

/-- Segmentation walk under the spec's cycle-break rule. -/
def segmentSpecGo (p : Entry) (cur : List Entry)
    (acc : List (List Entry)) : List Entry → List (List Entry)
  | [] => if cur.isEmpty then acc else acc ++ [cur]
  | e :: rest =>
    if specStartsNew p e then
      segmentSpecGo e [e] (if cur.isEmpty then acc else acc ++ [cur]) rest
    else
      segmentSpecGo e (cur ++ [e]) acc rest

/-- Segmentation under the spec's cycle-break rule. -/
def segmentCyclesSpec : List Entry → List (List Entry)
  | [] => []
  | e :: rest => segmentSpecGo e [e] [] rest

/-- Cycle-break rule as the code actually behaves, worded as the amended
claim: a gap check is evaluated only when the previous value exists AND is
non-zero (JavaScript truthiness of `lastJuld`/`lastPres`). -/
def amendedStartsNew (p e : Entry) : Bool :=
  (match p.juld with
   | none => false
   | some pj => decide (pj ≠ 0) && decide (1 < jsAbs (jsNum e.juld - pj))) ||
  (match p.pres with
   | none => false
   | some pp => decide (pp ≠ 0) && (decide (50 < jsAbs (jsNum e.pres - pp))
       && decide (jsNum e.pres < pp)))

/-- Segmentation walk under the amended cycle-break rule. -/
def segmentAmendGo (p : Entry) (cur : List Entry)
    (acc : List (List Entry)) : List Entry → List (List Entry)
  | [] => if cur.isEmpty then acc else acc ++ [cur]
  | e :: rest =>
    if amendedStartsNew p e then
      segmentAmendGo e [e] (if cur.isEmpty then acc else acc ++ [cur]) rest
    else
      segmentAmendGo e (cur ++ [e]) acc rest

/-- Segmentation under the amended cycle-break rule. -/
def segmentCyclesAmended : List Entry → List (List Entry)
  | [] => []
  | e :: rest => segmentAmendGo e [e] [] rest

theorem startsNew_eq_amended (p e : Entry) :
    startsNewCycle p.juld p.pres e = amendedStartsNew p e := by
  rcases hj : p.juld with _ | pj <;> rcases hp : p.pres with _ | pp <;>
    by_cases hj0 : jsNum p.juld = 0 <;> by_cases hp0 : jsNum p.pres = 0 <;>
      simp_all [startsNewCycle, amendedStartsNew, timeGapOf, presGapOf,
        truthy, jsNum]

theorem segmentGo_eq_amendGo (l : List Entry) : ∀ (p : Entry)
    (cur : List Entry) (acc : List (List Entry)),
    segmentGo p.juld p.pres cur acc l = segmentAmendGo p cur acc l := by
  induction l with
  | nil => intro p cur acc; rfl
  | cons e rest ih =>
    intro p cur acc
    show (if startsNewCycle p.juld p.pres e then _ else _) = _
    rw [startsNew_eq_amended]
    by_cases h : amendedStartsNew p e <;> simp only [segmentAmendGo, h,
      if_true, if_false, ih]

/-- Claim C2 (amended): walking a bucket's entries sorted ascending by time,
an entry starts a new cycle exactly when it is the first entry, or the
previous time value exists, is non-zero, and the absolute time gap exceeds
1.0, or the previous pressure exists, is non-zero, the absolute pressure gap
exceeds 50, and the current pressure is below the previous one: a gap check
is evaluated only when the previous value exists and is non-zero. -/
theorem segmentation_rule_amended (entries : List Entry) :
    segmentCycles (sortEntries entries)
      = segmentCyclesAmended (sortEntries entries) := by
  cases h : sortEntries entries with
  | nil => rfl
  | cons e rest =>
    show segmentGo e.juld e.pres [e] [] rest = _
    rw [segmentGo_eq_amendGo]
    rfl

/-- A concrete two-entry bucket exercising the time-gap suppression:
previous `juld` is `0` (falsy), current is `3`. -/
def entryJP (j p : ℚ) : Entry :=
  { latitude := 10, longitude := 20, pres := some p, juld := some j,
    temp := none, psal := none, doxy := none, nitrate := none, ph := none,
    organization := [], dateIso := none }

/-- Claim C2 (counterexample): at previous time value exactly `0`, the code
suppresses the time-gap check, so entries at times `0` and `3` stay in one
cycle, while the claim's rule (gap check whenever a previous value exists)
starts a second cycle. -/
theorem segmentation_rule_cex :
    segmentCycles [entryJP 0 10, entryJP 3 10]
        = [[entryJP 0 10, entryJP 3 10]] ∧
      segmentCyclesSpec [entryJP 0 10, entryJP 3 10]
        = [[entryJP 0 10], [entryJP 3 10]] := by
  constructor <;>
    norm_num [segmentCycles, segmentGo, segmentCyclesSpec, segmentSpecGo,
      startsNewCycle, specStartsNew, timeGapOf, presGapOf, truthy, jsNum,
      jsAbs, entryJP]

/-- Claim C10: a previous time value of exactly `0` is treated like an absent
previous value: the time gap evaluates to `0`, so no new cycle starts at the
following entry (here one with time value above 1) unless the pressure
condition independently fires. -/
theorem time_gap_suppressed_at_zero (e1 e2 : Entry) (h0 : e1.juld = some 0)
    (_hgt : 1 < jsNum e2.juld)
    (hpres : (decide (50 < presGapOf e1.pres e2)
        && decide (jsNum e2.pres < jsNum e1.pres)) = false) :
    timeGapOf e1.juld e2 = 0 ∧ startsNewCycle e1.juld e1.pres e2 = false ∧
      segmentCycles [e1, e2] = [[e1, e2]] := by
  have hgap : timeGapOf e1.juld e2 = 0 := by
    simp [timeGapOf, h0, truthy]
  have hcond : startsNewCycle e1.juld e1.pres e2 = false := by
    simp only [startsNewCycle, hgap, hpres, Bool.or_false]
    simp
  refine ⟨hgap, hcond, ?_⟩
  show segmentGo e1.juld e1.pres [e1] [] [e2] = [[e1, e2]]
  simp [segmentGo, hcond]

/-- Witness for claim C10 at the concrete bucket `[time 0, time 3]` with
equal pressures. -/
theorem time_gap_suppressed_at_zero_witness :
    timeGapOf (entryJP 0 10).juld (entryJP 3 10) = 0 ∧
      startsNewCycle (entryJP 0 10).juld (entryJP 0 10).pres (entryJP 3 10)
        = false ∧
      segmentCycles [entryJP 0 10, entryJP 3 10]
        = [[entryJP 0 10, entryJP 3 10]] :=
  time_gap_suppressed_at_zero (entryJP 0 10) (entryJP 3 10) rfl
    (by norm_num [entryJP, jsNum])
    (by norm_num [entryJP, jsNum, presGapOf, truthy, jsAbs])

/-! ## The single-flight aggregation cache (claims C3, C5)

`app.js` lines 306–326: module state `FLOATS_CACHE` (the stored aggregate)
and `CACHE_BUILDING` (the in-flight build's promise).  The JavaScript event
loop runs `ensureCache` atomically (no `await` between the test and the set
of `CACHE_BUILDING`), so the cache is a state machine stepped by discrete
events: a request, or the completion (success or failure) of the in-flight
build.  Builds are identified by a counter `next`; an aggregate result is
abstracted to a `Nat`. -/

/-- Cache state: `cache` models `FLOATS_CACHE` (`none` = `null`), `building`
models `CACHE_BUILDING` (`some b` = the promise of in-flight build `b`), and
`next` numbers build attempts. -/
structure CacheState where
  cache : Option Nat
  building : Option Nat
  next : Nat
deriving DecidableEq

/-- What a caller of `ensureCache` receives: the stored aggregate, or
attachment to (the promise of) build `b`. -/
inductive ReqRes where
  | cached (a : Nat)
  | attached (b : Nat)
deriving DecidableEq

/-- One call to `ensureCache` (`app.js` lines 309–326): return the cache if
present; else if a build is in flight, return its promise; else start a new
build and return its promise (the starter also awaits `CACHE_BUILDING`). -/
def ensureCache (s : CacheState) : CacheState × ReqRes :=
  match s.cache with
  | some a => (s, .cached a)
  | none =>
    match s.building with
    | some b => (s, .attached b)
    | none => ({ s with building := some s.next, next := s.next + 1 },
        .attached s.next)

/-- Resolution broadcast of a finished build: `(b, some r)` resolves build
`b`'s promise with result `r` for every attached waiter; `(b, none)` rejects
it for every attached waiter. -/
abbrev Resolution := Nat × Option Nat

/-- Completion of the in-flight build (the `.then`/`.catch` callbacks of
`app.js` lines 312–323): on success store the aggregate and clear
`CACHE_BUILDING`; on failure only clear `CACHE_BUILDING` (the cache reverts
to empty).  Either way the attempt's promise is resolved/rejected for all
its waiters. -/
def finishBuild (s : CacheState) (ok : Option Nat) :
    CacheState × Option Resolution :=
  match s.building with
  | none => (s, none)
  | some b =>
    match ok with
    | some r => ({ s with cache := some r, building := none }, some (b, some r))
    | none => ({ s with building := none }, some (b, none))

/-- Iterated concurrent requests (no intervening completion event). -/
def runReqs : CacheState → Nat → CacheState × List ReqRes
  | s, 0 => (s, [])
  | s, n + 1 =>
    let (s', r) := ensureCache s
    let (s'', rs) := runReqs s' n
    (s'', r :: rs)

theorem ensureCache_of_building (s : CacheState) (b : Nat)
    (hc : s.cache = none) (hb : s.building = some b) :
    ensureCache s = (s, .attached b) := by
  simp [ensureCache, hc, hb]

theorem runReqs_of_building (n : Nat) : ∀ (s : CacheState) (b : Nat),
    s.cache = none → s.building = some b →
    runReqs s n = (s, List.replicate n (.attached b)) := by
  induction n with
  | zero => intro s b hc hb; rfl
  | succ n ih =>
    intro s b hc hb
    simp [runReqs, ensureCache_of_building s b hc hb, ih s b hc hb,
      List.replicate_succ]

/-- Claim C3: the cache is single-flight.  Any number of requests arriving
from the empty state (no aggregate stored, no build in flight) start exactly
one build — the first request's — and every one of them attaches to that
same build's promise, so all of them observe that one attempt's result or
failure; no second build starts while it is in flight. -/
theorem ensureCache_single_flight (s : CacheState) (n : Nat)
    (hc : s.cache = none) (hb : s.building = none) (hn : 0 < n) :
    (runReqs s n).2 = List.replicate n (.attached s.next) ∧
      (runReqs s n).1.building = some s.next ∧
      (runReqs s n).1.next = s.next + 1 := by
  obtain ⟨m, rfl⟩ : ∃ m, n = m + 1 := ⟨n - 1, by omega⟩
  have hstep : ensureCache s
      = ({ s with building := some s.next, next := s.next + 1 },
          .attached s.next) := by
    simp [ensureCache, hc, hb]
  have hrest := runReqs_of_building m
    { s with building := some s.next, next := s.next + 1 } s.next hc rfl
  simp [runReqs, hstep, hrest, List.replicate_succ]

/-- Witness for claim C3: three concurrent requests from the initial empty
state all attach to build `0`, and exactly one build (number `0`) starts. -/
theorem ensureCache_single_flight_witness :
    (runReqs ⟨none, none, 0⟩ 3).2 = List.replicate 3 (.attached 0) ∧
      (runReqs ⟨none, none, 0⟩ 3).1.building = some 0 ∧
      (runReqs ⟨none, none, 0⟩ 3).1.next = 0 + 1 :=
  ensureCache_single_flight ⟨none, none, 0⟩ 3 rfl rfl (by decide)

/-- Claim C5: a failed ingestion pass is fatal to that attempt only.  From a
state with build `b` in flight and nothing cached, the failure rejects `b`'s
promise (every waiter of that attempt receives the failure), stores no
partial aggregate, reverts the cache to the empty state, and a subsequent
request starts a fresh build from scratch. -/
theorem build_failure_reverts (s : CacheState) (b : Nat)
    (hc : s.cache = none) (hb : s.building = some b) :
    finishBuild s none = ({ s with building := none }, some (b, none)) ∧
      (finishBuild s none).1.cache = none ∧
      (finishBuild s none).1.building = none ∧
      ensureCache (finishBuild s none).1
        = ({ s with building := some s.next, next := s.next + 1 },
            .attached s.next) := by
  have h1 : finishBuild s none = ({ s with building := none }, some (b, none)) := by
    simp [finishBuild, hb]
  refine ⟨h1, ?_, ?_, ?_⟩ <;> simp [h1, ensureCache, hc]

/-- Witness for claim C5 at the concrete state: build `0` in flight, empty
cache. -/
theorem build_failure_reverts_witness :
    finishBuild ⟨none, some 0, 1⟩ none = (⟨none, none, 1⟩, some (0, none)) ∧
      (finishBuild ⟨none, some 0, 1⟩ none).1.cache = none ∧
      (finishBuild ⟨none, some 0, 1⟩ none).1.building = none ∧
      ensureCache (finishBuild ⟨none, some 0, 1⟩ none).1
        = ({ cache := none, building := some 1, next := 2 }, .attached 1) :=
  build_failure_reverts ⟨none, some 0, 1⟩ 0 rfl rfl

/-! ## Case-insensitive alias resolution (claim C4)

The row callback of `loadFloatsStreaming` (`app.js` lines 225–234) builds
`keyMap` — lowercased key ↦ original key, a JavaScript `Map` where a later
`set` of the same lowercased form overwrites an earlier one — and the local
`get(names)` walks the alias list through `keyMap`.  JavaScript strings are
modelled as `List Char` so that lowercasing is computable
(`String.toLower` maps `Char.toLower` over the characters). -/

/-- String lowercasing (`String.prototype.toLowerCase`, ASCII-idealized the
same way `String.toLower` is). -/
def lowerJ (s : JStr) : JStr := s.map Char.toLower

/-- JavaScript `Map.prototype.set` on an association list: replace in place
if the key is present, else append (insertion order preserved). -/
def mapSet : List (JStr × JStr) → JStr → JStr → List (JStr × JStr)
  | [], k, v => [(k, v)]
  | (k', v') :: rest, k, v =>
    if k' = k then (k, v) :: rest else (k', v') :: mapSet rest k v

/-- JavaScript `Map.prototype.get` / object property read on an association
list (row objects built by the CSV reader have pairwise distinct keys). -/
def mapGet (m : List (JStr × JStr)) (k : JStr) : Option JStr :=
  (m.find? (fun p => decide (p.1 = k))).map Prod.snd

/-- The `keyMap` of the row callback (`app.js` lines 226–227): for each row
key in order, `keyMap.set(k.toLowerCase(), k)` — a later case-variant key
overwrites an earlier one. -/
def keyMapOf (keys : List JStr) : List (JStr × JStr) :=
  keys.foldl (fun m k => mapSet m (lowerJ k) k) []

/-- The row-local `get(names)` (`app.js` lines 228–234): walk the aliases in
order; look the lowercased alias up in `keyMap`; if an original key comes
back non-empty and the row holds a non-empty value there, return it,
otherwise try the next alias; return `''` when no alias hits. -/
def get (r : List (JStr × JStr)) : List JStr → JStr
  | [] => []
  | name :: rest =>
    match mapGet (keyMapOf (r.map Prod.fst)) (lowerJ name) with
    | some k =>
      if k ≠ [] then
        match mapGet r k with
        | some v => if v ≠ [] then v else get r rest
        | none => get r rest
      else get r rest
    | none => get r rest

/-- Alias resolution as the claim words it (refinement reference, not the
code): the first alias whose case-insensitive match in the row is present
and non-empty wins. -/
def getSpec (r : List (JStr × JStr)) : List JStr → JStr
  | [] => []
  | name :: rest =>
    match r.find? (fun p => decide (lowerJ p.1 = lowerJ name)
        && decide (p.2 ≠ [])) with
    | some p => p.2
    | none => getSpec r rest

theorem mapGet_cons (k' v' k : JStr) (rest : List (JStr × JStr)) :
    mapGet ((k', v') :: rest) k = if k' = k then some v' else mapGet rest k := by
  by_cases h : k' = k <;> simp [mapGet, h]

theorem mapGet_mapSet (m : List (JStr × JStr)) (a b k : JStr) :
    mapGet (mapSet m a b) k = if k = a then some b else mapGet m k := by
  induction m with
  | nil =>
    by_cases h : k = a
    · subst h; simp [mapSet, mapGet]
    · simp [mapSet, mapGet, h, Ne.symm h]
  | cons p rest ih =>
    obtain ⟨k', v'⟩ := p
    by_cases h1 : k' = a
    · subst h1
      rw [show mapSet ((k', v') :: rest) k' b = (k', b) :: rest by
        simp [mapSet]]
      rw [mapGet_cons, mapGet_cons]
      by_cases h : k' = k
      · subst h; simp
      · simp [h, Ne.symm h]
    · rw [show mapSet ((k', v') :: rest) a b = (k', v') :: mapSet rest a b by
        simp [mapSet, h1]]
      rw [mapGet_cons, mapGet_cons, ih]
      by_cases h : k' = k
      · subst h
        simp [h1]
      · simp [h]

theorem mapGet_keyMap_foldl (keys : List JStr) : ∀ (m : List (JStr × JStr))
    (l : JStr), (keys.map lowerJ).Nodup →
    mapGet (keys.foldl (fun acc kk => mapSet acc (lowerJ kk) kk) m) l
      = (keys.find? (fun kk => decide (lowerJ kk = l))).or (mapGet m l) := by
  induction keys with
  | nil => intro m l _; rfl
  | cons kk keys ih =>
    intro m l hnd
    rw [List.map_cons, List.nodup_cons] at hnd
    obtain ⟨hnotin, hnd'⟩ := hnd
    show mapGet (keys.foldl _ (mapSet m (lowerJ kk) kk)) l = _
    rw [ih _ l hnd']
    by_cases h : lowerJ kk = l
    · have hnone : keys.find? (fun k2 => decide (lowerJ k2 = l)) = none := by
        rw [List.find?_eq_none]
        intro x hx
        simp only [decide_eq_true_eq]
        intro hxl
        exact hnotin (by
          rw [h, ← hxl]
          exact List.mem_map_of_mem lowerJ hx)
      rw [hnone, List.find?_cons_of_pos _ (by simpa using h), mapGet_mapSet,
        if_pos h.symm]
      simp [Option.or]
    · rw [List.find?_cons_of_neg _ (by simpa using h), mapGet_mapSet,
        if_neg (fun hh => h hh.symm)]

/-- The single-alias outcome of the `get` closure: `some v` when the alias
hits a usable value, `none` when the loop moves to the next alias. -/
def aliasHit (r : List (JStr × JStr)) (n : JStr) : Option JStr :=
  match mapGet (keyMapOf (r.map Prod.fst)) (lowerJ n) with
  | some k =>
    if k ≠ [] then
      match mapGet r k with
      | some v => if v ≠ [] then some v else none
      | none => none
    else none
  | none => none

theorem get_cons (r : List (JStr × JStr)) (n : JStr) (rest : List JStr) :
    get r (n :: rest)
      = match aliasHit r n with
        | some v => v
        | none => get r rest := by
  rcases hk : mapGet (keyMapOf (r.map Prod.fst)) (lowerJ n) with _ | k
  · simp only [get, aliasHit, hk]
  · by_cases hke : k = []
    · simp only [get, aliasHit, hk, hke]
      simp
    · rcases hv : mapGet r k with _ | v
      · simp only [get, aliasHit, hk, hv]
        simp [hke]
      · by_cases hve : v = [] <;>
          · simp only [get, aliasHit, hk, hv]
            simp [hke, hve]

/-- The key-lookup core of one alias step: first lowercase key match in the
row's key list, then the row read and the two emptiness tests. -/
def aliasCore (r : List (JStr × JStr)) (n : JStr) : Option JStr :=
  ((r.map Prod.fst).find? (fun kk => decide (lowerJ kk = lowerJ n))).bind
    fun k =>
      if k ≠ [] then
        (mapGet r k).bind fun v => if v ≠ [] then some v else none
      else none

theorem aliasHit_eq_core (r : List (JStr × JStr)) (n : JStr)
    (hnd : (r.map fun p => lowerJ p.1).Nodup) :
    aliasHit r n = aliasCore r n := by
  unfold aliasHit aliasCore keyMapOf
  rw [mapGet_keyMap_foldl _ _ _ (by rw [List.map_map]; exact hnd)]
  cases hf : (r.map Prod.fst).find? (fun kk => decide (lowerJ kk = lowerJ n)) with
  | none => rfl
  | some k =>
    show (if k ≠ [] then _ else _) = _
    by_cases hk : k = []
    · simp [hk, Option.or]
    · simp only [Option.or, Option.bind, hk, if_neg, ne_eq,
        not_false_iff, if_true]
      cases mapGet r k with
      | none => rfl
      | some v => rfl

theorem aliasCore_eq_spec (r : List (JStr × JStr)) (n : JStr)
    (hnd : (r.map fun p => lowerJ p.1).Nodup)
    (hne : ∀ p ∈ r, p.1 ≠ ([] : JStr)) :
    aliasCore r n
      = (r.find? (fun p => decide (lowerJ p.1 = lowerJ n)
          && decide (p.2 ≠ ([] : JStr)))).map Prod.snd := by
  induction r with
  | nil => rfl
  | cons p r' ih =>
    obtain ⟨k0, v0⟩ := p
    rw [List.map_cons, List.nodup_cons] at hnd
    obtain ⟨hnotin, hnd'⟩ := hnd
    have hne0 : k0 ≠ [] := hne (k0, v0) (by simp)
    have hne' : ∀ q ∈ r', q.1 ≠ ([] : JStr) := fun q hq =>
      hne q (List.mem_cons_of_mem _ hq)
    by_cases h : lowerJ k0 = lowerJ n
    · unfold aliasCore
      rw [List.map_cons, List.find?_cons_of_pos _ (by simpa using h)]
      have hgr : mapGet ((k0, v0) :: r') k0 = some v0 := by
        rw [mapGet_cons, if_pos rfl]
      by_cases hv0 : v0 = []
      · have hnone : r'.find? (fun q => decide (lowerJ q.1 = lowerJ n)
            && decide (q.2 ≠ ([] : JStr))) = none := by
          rw [List.find?_eq_none]
          intro q hq
          simp only [Bool.and_eq_true, decide_eq_true_eq, not_and]
          intro hql _
          exact hnotin (by
            show lowerJ (k0, v0).1 ∈ _
            rw [show lowerJ (k0, v0).1 = lowerJ q.1 from (hql.trans h.symm).symm]
            exact List.mem_map_of_mem _ hq)
        subst hv0
        rw [List.find?_cons_of_neg _ (by simp [h]), hnone]
        simp only [Option.some_bind, Option.map_none, ne_eq, hne0,
          not_false_iff, if_true, hgr]
        simp
      · rw [List.find?_cons_of_pos _ (by simp [h, hv0])]
        simp only [Option.some_bind, Option.map_some, ne_eq, hne0,
          not_false_iff, if_true, hgr]
        simp [hv0]
    · unfold aliasCore
      rw [List.map_cons, List.find?_cons_of_neg _ (by simpa using h),
        List.find?_cons_of_neg _ (by simp [h])]
      have ih' := ih hnd' hne'
      unfold aliasCore at ih'
      cases hf : (r'.map Prod.fst).find?
          (fun kk => decide (lowerJ kk = lowerJ n)) with
      | none =>
        rw [hf] at ih'
        simpa using ih'
      | some k =>
        rw [hf] at ih'
        have hkprop : lowerJ k = lowerJ n := by
          simpa using List.find?_some hf
        have hkne : k0 ≠ k := fun hh => h (hh ▸ hkprop)
        have hstep : mapGet ((k0, v0) :: r') k = mapGet r' k := by
          rw [mapGet_cons, if_neg hkne]
        simp only [Option.some_bind] at ih' ⊢
        rw [hstep]
        exact ih'

theorem getSpec_cons (r : List (JStr × JStr)) (n : JStr) (rest : List JStr) :
    getSpec r (n :: rest)
      = match r.find? (fun p => decide (lowerJ p.1 = lowerJ n)
          && decide (p.2 ≠ ([] : JStr))) with
        | some p => p.2
        | none => getSpec r rest := rfl

/-- Claim C4 (amended): alias resolution is case-insensitive, but among row
keys sharing a lowercase form the LAST one (in key order) shadows the others
in `keyMap`.  (1) For a row whose keys have pairwise distinct lowercase
forms (and no empty key), resolution returns the value of the first alias
present and non-empty, matched case-insensitively, and `''` (absent)
otherwise.  (2) For a row populating both `LATITUDE` and `latitude`, the
value of the later key `latitude` wins deterministically, regardless of
alias order. -/
theorem get_alias_resolution :
    (∀ (r : List (JStr × JStr)) (names : List JStr),
      (r.map fun p => lowerJ p.1).Nodup → (∀ p ∈ r, p.1 ≠ ([] : JStr)) →
      get r names = getSpec r names) ∧
    (∀ v1 v2 : JStr, v2 ≠ [] →
      get [("LATITUDE".toList, v1), ("latitude".toList, v2)]
        ["LATITUDE".toList, "latitude".toList, "lat".toList] = v2) := by
  constructor
  · intro r names hnd hne
    induction names with
    | nil => rfl
    | cons n rest ih =>
      rw [get_cons, getSpec_cons, aliasHit_eq_core r n hnd,
        aliasCore_eq_spec r n hnd hne]
      cases hf : r.find? (fun p => decide (lowerJ p.1 = lowerJ n)
          && decide (p.2 ≠ ([] : JStr))) with
      | none => simpa using ih
      | some p => simp
  · intro v1 v2 hv2
    rw [get_cons]
    have hah : aliasHit [("LATITUDE".toList, v1), ("latitude".toList, v2)]
        "LATITUDE".toList = some v2 := by
      have h1 : mapGet (keyMapOf ["LATITUDE".toList, "latitude".toList])
          (lowerJ "LATITUDE".toList) = some "latitude".toList := by decide
      have h2 : mapGet [("LATITUDE".toList, v1), ("latitude".toList, v2)]
          "latitude".toList = some v2 := by
        rw [mapGet_cons, if_neg (by decide), mapGet_cons, if_pos rfl]
      unfold aliasHit
      rw [show List.map Prod.fst
          [("LATITUDE".toList, v1), ("latitude".toList, v2)]
        = ["LATITUDE".toList, "latitude".toList] from rfl]
      simp only [h1, h2, ne_eq, hv2, not_false_iff, if_true]
      rw [if_pos (by decide)]
    rw [hah]

/-- A counterexample row for claim C4 as stated: both `LATITUDE` and
`latitude` populated, with different values. -/
def cexRow : List (JStr × JStr) :=
  [("LATITUDE".toList, "10".toList), ("latitude".toList, "20".toList)]

/-- The latitude alias list of the source (`app.js` line 239). -/
def latAliases : List JStr := ["LATITUDE".toList, "latitude".toList, "lat".toList]

/-- Claim C4 (counterexample): on a row populating both `LATITUDE` (value
`10`, listed first among the aliases) and `latitude` (value `20`), the code
returns `20` — the last case-variant key shadows the first in `keyMap` —
while the claim's first-alias-wins rule returns `10`. -/
theorem get_alias_resolution_cex :
    get cexRow latAliases = "20".toList ∧
      getSpec cexRow latAliases = "10".toList ∧
      "20".toList ≠ "10".toList := by
  refine ⟨?_, by decide, by decide⟩
  have h20 : ("20".toList : JStr) ≠ [] := by decide
  simpa [cexRow, latAliases] using
    (get_alias_resolution).2 "10".toList "20".toList h20

/-- Witness for the amended claim C4 at a concrete row with distinct
lowercase key forms. -/
theorem get_alias_resolution_witness :
    get [("LATITUDE".toList, "7".toList), ("lon".toList, "8".toList)]
        latAliases
      = getSpec [("LATITUDE".toList, "7".toList), ("lon".toList, "8".toList)]
        latAliases ∧
    get [("LATITUDE".toList, "10".toList), ("latitude".toList, "20".toList)]
        ["LATITUDE".toList, "latitude".toList, "lat".toList] = "20".toList :=
  ⟨(get_alias_resolution).1
      [("LATITUDE".toList, "7".toList), ("lon".toList, "8".toList)]
      latAliases (by decide) (by decide),
    (get_alias_resolution).2 "10".toList "20".toList (by decide)⟩

/-! ## Platform aggregation and the sticky `bgc` kind (claim C7)

`app.js` lines 291–295: the per-platform bucket map is created on first
sight with the current file's source kind and every later row from a `bgc`
file upgrades the bucket's `type` to `'bgc'`. -/

/-- One row's effect on its bucket (`app.js` lines 293–295): append the
entry; if this row's file is `bgc`, mark the bucket `bgc`. -/
def bucketUpdate (b : Bucket) (e : Entry) (st : String) : Bucket :=
  { entries := b.entries ++ [e],
    type := if st = "bgc" then "bgc" else b.type }

/-- `idToEntries` update for one accepted row (`app.js` lines 291–295):
create the bucket with the file's source kind on first sight, then apply
`bucketUpdate`. -/
def addRowToMap : List (JStr × Bucket) → JStr → Entry → String →
    List (JStr × Bucket)
  | [], p, e, st => [(p, bucketUpdate ⟨[], st⟩ e st)]
  | (q, b) :: rest, p, e, st =>
    if q = p then (q, bucketUpdate b e st) :: rest
    else (q, b) :: addRowToMap rest p e st

/-- Bucket lookup (`idToEntries.get(platform)`). -/
def bucketOf (m : List (JStr × Bucket)) (p : JStr) : Option Bucket :=
  (m.find? (fun x => decide (x.1 = p))).map Prod.snd

/-- The whole aggregation pass over the accepted rows of all files, in read
order: each row carries its platform id, entry, and file source kind. -/
def ingestRows (rows : List (JStr × Entry × String)) : List (JStr × Bucket) :=
  rows.foldl (fun m r => addRowToMap m r.1 r.2.1 r.2.2) []

theorem bucketOf_addRow (m : List (JStr × Bucket)) (p : JStr) (e : Entry)
    (st : String) (q : JStr) :
    bucketOf (addRowToMap m p e st) q
      = if q = p
        then some (bucketUpdate ((bucketOf m p).getD ⟨[], st⟩) e st)
        else bucketOf m q := by
  induction m with
  | nil =>
    by_cases h : q = p
    · subst h; simp [addRowToMap, bucketOf]
    · simp [addRowToMap, bucketOf, h, Ne.symm h]
  | cons x rest ih =>
    obtain ⟨k, b⟩ := x
    by_cases hk : k = p
    · subst hk
      rw [show addRowToMap ((k, b) :: rest) k e st
          = (k, bucketUpdate b e st) :: rest by simp [addRowToMap]]
      by_cases h : q = k
      · subst h
        simp [bucketOf]
      · simp [bucketOf, Ne.symm h, h]
    · rw [show addRowToMap ((k, b) :: rest) p e st
          = (k, b) :: addRowToMap rest p e st by simp [addRowToMap, hk]]
      by_cases h : q = k
      · subst h
        have hqp : ¬ q = p := hk
        simp [bucketOf, hqp]
      · show bucketOf ((k, b) :: addRowToMap rest p e st) q = _
        rw [show bucketOf ((k, b) :: addRowToMap rest p e st) q
            = bucketOf (addRowToMap rest p e st) q by
          simp [bucketOf, Ne.symm h]]
        rw [ih]
        by_cases hq : q = p
        · subst hq
          simp [bucketOf, Ne.symm h, hk]
        · simp [bucketOf, Ne.symm h, hq]

theorem ingest_type_bgc_iff (rows : List (JStr × Entry × String)) :
    ∀ (m : List (JStr × Bucket)) (p : JStr) (b : Bucket),
    bucketOf (rows.foldl (fun m r => addRowToMap m r.1 r.2.1 r.2.2) m) p
      = some b →
    (b.type = "bgc" ↔
      ((∃ b0, bucketOf m p = some b0 ∧ b0.type = "bgc") ∨
        ∃ r ∈ rows, r.1 = p ∧ r.2.2 = "bgc")) := by
  induction rows with
  | nil =>
    intro m p b hb
    simp only [List.foldl_nil] at hb
    simp [hb]
  | cons r rows ih =>
    intro m p b hb
    obtain ⟨q, e, st⟩ := r
    simp only [List.foldl_cons] at hb
    rw [ih _ p b hb]
    have hstep := bucketOf_addRow m q e st p
    constructor
    · rintro (⟨b0, hb0, hty⟩ | hmem)
      · by_cases hqp : p = q
        · subst hqp
          rw [hstep, if_pos rfl] at hb0
          obtain rfl : bucketUpdate ((bucketOf m p).getD ⟨[], st⟩) e st = b0 := by
            simpa using hb0
          by_cases hst : st = "bgc"
          · exact Or.inr ⟨(p, e, st), by simp, rfl, hst⟩
          · simp only [bucketUpdate, hst, if_false] at hty
            cases hmp : bucketOf m p with
            | none =>
              rw [hmp] at hty
              simp only [Option.getD_none] at hty
              exact absurd hty hst
            | some b1 =>
              rw [hmp] at hty
              exact Or.inl ⟨b1, rfl, hty⟩
        · rw [hstep, if_neg hqp] at hb0
          exact Or.inl ⟨b0, hb0, hty⟩
      · obtain ⟨r', hr', hrp, hrb⟩ := hmem
        exact Or.inr ⟨r', List.mem_cons_of_mem _ hr', hrp, hrb⟩
    · rintro (⟨b0, hb0, hty⟩ | hmem)
      · by_cases hqp : p = q
        · subst hqp
          refine Or.inl ⟨bucketUpdate ((bucketOf m p).getD ⟨[], st⟩) e st,
            by rw [hstep, if_pos rfl], ?_⟩
          simp only [bucketUpdate]
          split
          · rfl
          · rw [hb0]
            simpa using hty
        · exact Or.inl ⟨b0, by rw [hstep, if_neg hqp]; exact hb0, hty⟩
      · simp only [List.mem_cons] at hmem
        obtain ⟨r', hr' | hr', hrp, hrb⟩ := hmem
        · subst hr'
          obtain rfl : q = p := hrp
          refine Or.inl ⟨bucketUpdate ((bucketOf m q).getD ⟨[], st⟩) e st,
            by rw [hstep, if_pos rfl], ?_⟩
          simp only [bucketUpdate]
          rw [if_pos hrb]
        · exact Or.inr ⟨r', hr', hrp, hrb⟩

/-- Claim C7: a bucket's kind is `bgc` exactly when at least one contributing
row came from a file under the biogeochemical root; the finalized record's
kind agrees with the bucket's; and appending a further `core` row never
reverts a `bgc` bucket (the upgrade is sticky). -/
theorem bgc_kind_iff_sticky (rows : List (JStr × Entry × String)) (p : JStr)
    (b : Bucket) (hb : bucketOf (ingestRows rows) p = some b) :
    (b.type = "bgc" ↔ ∃ r ∈ rows, r.1 = p ∧ r.2.2 = "bgc") ∧
    ((finalizeBucket p b).type = "bgc" ↔ b.type = "bgc") ∧
    (∀ e, ∃ b', bucketOf (addRowToMap (ingestRows rows) p e "core") p
        = some b' ∧ (b.type = "bgc" → b'.type = "bgc")) := by
  refine ⟨?_, ?_, ?_⟩
  · have := ingest_type_bgc_iff rows [] p b hb
    simpa [bucketOf] using this
  · show (if b.type = "" then "core" else b.type) = "bgc" ↔ b.type = "bgc"
    by_cases h : b.type = "" <;> simp [h]
  · intro e
    refine ⟨bucketUpdate ((bucketOf (ingestRows rows) p).getD ⟨[], "core"⟩)
      e "core", by rw [bucketOf_addRow, if_pos rfl], ?_⟩
    intro hty
    simp only [bucketUpdate, hb, Option.getD_some]
    rw [if_neg (by decide)]
    exact hty

/-- Witness for claim C7: one platform fed first by a `core` file row and
then by a `bgc` file row ends with kind `bgc`, matching the existence of a
`bgc` contribution; a further `core` row keeps it `bgc`. -/
theorem bgc_kind_iff_sticky_witness :
    (((⟨[entryJP 0 10, entryJP 3 10], "bgc"⟩ : Bucket).type = "bgc") ↔
      ∃ r ∈ [("x".toList, entryJP 0 10, "core"),
          ("x".toList, entryJP 3 10, "bgc")],
        r.1 = "x".toList ∧ r.2.2 = "bgc") ∧
    ((finalizeBucket "x".toList
        (⟨[entryJP 0 10, entryJP 3 10], "bgc"⟩ : Bucket)).type = "bgc" ↔
      (⟨[entryJP 0 10, entryJP 3 10], "bgc"⟩ : Bucket).type = "bgc") ∧
    (∀ e, ∃ b', bucketOf (addRowToMap (ingestRows
        [("x".toList, entryJP 0 10, "core"),
          ("x".toList, entryJP 3 10, "bgc")]) "x".toList e "core")
          "x".toList = some b' ∧
      ((⟨[entryJP 0 10, entryJP 3 10], "bgc"⟩ : Bucket).type = "bgc" →
        b'.type = "bgc")) :=
  bgc_kind_iff_sticky
    [("x".toList, entryJP 0 10, "core"), ("x".toList, entryJP 3 10, "bgc")]
    "x".toList ⟨[entryJP 0 10, entryJP 3 10], "bgc"⟩ rfl

/-! ## Source-kind tagging by file path (claim C9)

`app.js` line 223:
`file.toLowerCase().includes(path.sep + 'bgc' + path.sep) ? 'bgc' : 'core'` —
a substring test on the lowercased full path, not a test of which scan root
(`data/bgc` vs `data/core`, line 205) the file was found under.  `path.sep`
is modelled as `'/'`. -/

/-- Does `hay` start with `needle`? -/
def headMatches : JStr → JStr → Bool
  | [], _ => true
  | _ :: _, [] => false
  | a :: as, b :: bs => decide (a = b) && headMatches as bs

/-- `String.prototype.includes`: does `n` occur contiguously in the second
argument? -/
def hasSub (n : JStr) : JStr → Bool
  | [] => n.isEmpty
  | c :: rest => headMatches n (c :: rest) || hasSub n rest

/-- The source-kind tag of one discovered file (`app.js` line 223). -/
def sourceTypeOf (file : JStr) : String :=
  if hasSub "/bgc/".toList (lowerJ file) then "bgc" else "core"

theorem hasSub_nil_left (l : JStr) : hasSub [] l = true := by
  cases l <;> simp [hasSub, headMatches, List.isEmpty]

theorem headMatches_append_right (n : JStr) : ∀ (h post : JStr),
    headMatches n h = true → headMatches n (h ++ post) = true := by
  induction n with
  | nil => intro h post _; cases h ++ post <;> simp [headMatches]
  | cons a as ih =>
    intro h post hm
    cases h with
    | nil => exact absurd hm (by simp [headMatches])
    | cons b bs =>
      simp only [headMatches, Bool.and_eq_true, decide_eq_true_eq] at hm
      simp only [List.cons_append, headMatches, Bool.and_eq_true,
        decide_eq_true_eq]
      exact ⟨hm.1, ih bs post hm.2⟩

theorem hasSub_append_left (n pre : JStr) (h : JStr)
    (hh : hasSub n h = true) : hasSub n (pre ++ h) = true := by
  induction pre with
  | nil => simpa using hh
  | cons c pre ih =>
    simp only [List.cons_append, hasSub, Bool.or_eq_true]
    exact Or.inr ih

theorem hasSub_append_right (n : JStr) : ∀ (h post : JStr),
    hasSub n h = true → hasSub n (h ++ post) = true := by
  intro h
  induction h with
  | nil =>
    intro post hh
    simp only [hasSub, List.isEmpty_iff] at hh
    subst hh
    simpa using hasSub_nil_left post
  | cons c rest ih =>
    intro post hh
    simp only [hasSub, Bool.or_eq_true] at hh
    simp only [List.cons_append, hasSub, Bool.or_eq_true]
    cases hh with
    | inl hm => exact Or.inl (headMatches_append_right n _ post hm)
    | inr hr => exact Or.inr (ih post hr)

/-- Claim C9 (amended): a file is tagged `bgc` exactly when its lowercased
path contains the separator-delimited segment `/bgc/`.  Any file under a
`…/data/bgc/` directory is tagged `bgc`; a file under a `…/data/core/`
directory is tagged `core` provided no other part of its path (the
installation prefix or a nested directory) contributes a lowercase `/bgc/`
segment. -/
theorem sourceType_by_path (dir rest : JStr) :
    sourceTypeOf (dir ++ "/data/bgc/".toList ++ rest) = "bgc" ∧
      (hasSub "/bgc/".toList (lowerJ (dir ++ "/data/core/".toList ++ rest))
          = false →
        sourceTypeOf (dir ++ "/data/core/".toList ++ rest) = "core") := by
  constructor
  · unfold sourceTypeOf
    rw [if_pos ?hit]
    case hit =>
      show hasSub "/bgc/".toList
        (lowerJ ((dir ++ "/data/bgc/".toList) ++ rest)) = true
      rw [lowerJ, List.map_append, List.map_append]
      rw [List.append_assoc]
      apply hasSub_append_left
      apply hasSub_append_right
      decide
  · intro hmiss
    unfold sourceTypeOf
    rw [if_neg (by rw [hmiss]; simp)]

/-- Witness for the amended claim C9 at a concrete installation prefix. -/
theorem sourceType_by_path_witness :
    sourceTypeOf ("/srv".toList ++ "/data/bgc/".toList ++ "a.csv".toList)
        = "bgc" ∧
      sourceTypeOf ("/srv".toList ++ "/data/core/".toList ++ "a.csv".toList)
        = "core" :=
  ⟨(sourceType_by_path "/srv".toList "a.csv".toList).1,
    (sourceType_by_path "/srv".toList "a.csv".toList).2 (by decide)⟩

/-- Claim C9 (counterexample): the file `/srv/data/core/bgc/x.csv` sits under
the core scan root `/srv/data/core/`, yet the substring test tags it `bgc`,
so "tagged `core` exactly when found under the core root" fails. -/
theorem sourceType_cex :
    "/srv/data/core/bgc/x.csv".toList
        = "/srv/data/core/".toList ++ "bgc/x.csv".toList ∧
      sourceTypeOf "/srv/data/core/bgc/x.csv".toList = "bgc" ∧
      "bgc" ≠ "core" :=
  ⟨by decide, by decide, by decide⟩


/-! ## Model of the ECMAScript Date built-ins (claims C6, C8)

The source leans on host `Date` primitives (`app.js` lines 252–277):
`Date.parse('1950-01-01T00:00:00Z')`, `new Date(ms).toISOString()`, and
`Date.UTC(y, m0, d, hh, mm, ss)`.  These are host-environment primitives,
not repository code; they are modelled from the ECMA-262 specification: the
proleptic Gregorian calendar with floor division (Day, YearFromTime,
MonthFromTime, DateFromTime, MakeDay, MakeTime, MakeFullYear), in Hinnant's
civil-from-days / days-from-civil formulation, which agrees with ECMA-262
extensionally.  `Int` division `/` here is Euclidean division, which for the
positive literal divisors used below is exactly ECMA's floor division. -/

/-- Gregorian date `(year, month, day)` of day number `z` (days since the
Unix epoch 1970-01-01), as ECMA-262's `YearFromTime`/`MonthFromTime`/
`DateFromTime` decompose it — the decomposition behind `toISOString`. -/
def civilFromDays (z : ℤ) : ℤ × ℤ × ℤ :=
  let z' := z + 719468
  let era := z' / 146097
  let doe := z' % 146097
  let yoe := (doe - doe / 1460 + doe / 36524 - doe / 146096) / 365
  let y := yoe + era * 400
  let doy := doe - (365 * yoe + yoe / 4 - yoe / 100)
  let mp := (5 * doy + 2) / 153
  let d := doy - (153 * mp + 2) / 5 + 1
  let m := mp + (if mp < 10 then 3 else -9)
  (y + (if m ≤ 2 then 1 else 0), m, d)

/-- Day number of a Gregorian date — ECMA-262's `MakeDay` restricted to a
month index in `[0, 11]` (rollover is handled by `makeDay`). -/
def daysFromCivil (y m d : ℤ) : ℤ :=
  let y' := y - (if m ≤ 2 then 1 else 0)
  let era := y' / 400
  let yoe := y' - era * 400
  let doy := (153 * (m + (if 2 < m then -3 else 9)) + 2) / 5 + d - 1
  let doe := yoe * 365 + yoe / 4 - yoe / 100 + doy
  era * 146097 + doe - 719468

set_option maxHeartbeats 4000000 in
/-- Bounds for the year-of-era, day-of-year and month extraction of
`civilFromDays` within one 400-year era. -/
theorem doy_bounds (doe : ℤ) (h1 : 0 ≤ doe) (h2 : doe ≤ 146096) :
    (0 ≤ (doe - doe / 1460 + doe / 36524 - doe / 146096) / 365 ∧
      (doe - doe / 1460 + doe / 36524 - doe / 146096) / 365 ≤ 399) ∧
    (0 ≤ doe - (365 * ((doe - doe / 1460 + doe / 36524 - doe / 146096) / 365) +
        ((doe - doe / 1460 + doe / 36524 - doe / 146096) / 365) / 4 -
        ((doe - doe / 1460 + doe / 36524 - doe / 146096) / 365) / 100) ∧
      doe - (365 * ((doe - doe / 1460 + doe / 36524 - doe / 146096) / 365) +
        ((doe - doe / 1460 + doe / 36524 - doe / 146096) / 365) / 4 -
        ((doe - doe / 1460 + doe / 36524 - doe / 146096) / 365) / 100) ≤ 365) ∧
    (0 ≤ (5 * (doe - (365 * ((doe - doe / 1460 + doe / 36524 - doe / 146096) / 365) +
        ((doe - doe / 1460 + doe / 36524 - doe / 146096) / 365) / 4 -
        ((doe - doe / 1460 + doe / 36524 - doe / 146096) / 365) / 100)) + 2) / 153 ∧
      (5 * (doe - (365 * ((doe - doe / 1460 + doe / 36524 - doe / 146096) / 365) +
        ((doe - doe / 1460 + doe / 36524 - doe / 146096) / 365) / 4 -
        ((doe - doe / 1460 + doe / 36524 - doe / 146096) / 365) / 100)) + 2) / 153 ≤ 11) := by
  have he : doe / 1460 = (doe - doe % 1460) / 1460 := by omega
  set e := doe / 1460 with hedef
  set f := doe / 36524 with hfdef
  set g := doe / 146096 with hgdef
  set yoe := (doe - e + f - g) / 365 with hyoedef
  have hs : yoe = 4 * e + (doe % 1460 - e + f - g) / 365 := by omega
  set s := (doe % 1460 - e + f - g) / 365 with hsdef
  have hsrange : s = -1 ∨ s = 0 ∨ s = 1 ∨ s = 2 ∨ s = 3 ∨ s = 4 := by omega
  have hfrange : f = 0 ∨ f = 1 ∨ f = 2 ∨ f = 3 ∨ f = 4 := by omega
  rcases hfrange with hf | hf | hf | hf | hf <;>
    rcases hsrange with hs' | hs' | hs' | hs' | hs' | hs' <;>
      omega

set_option maxHeartbeats 4000000 in
/-- The civil-date decomposition composed with recomposition is the
identity on day numbers. -/
theorem daysFromCivil_civilFromDays (z : ℤ) :
    daysFromCivil (civilFromDays z).1 (civilFromDays z).2.1 (civilFromDays z).2.2 = z := by
  have hdoe1 : 0 ≤ (z + 719468) % 146097 := by omega
  have hdoe2 : (z + 719468) % 146097 ≤ 146096 := by omega
  have hdoy := doy_bounds ((z + 719468) % 146097) hdoe1 hdoe2
  have hy400 : ((z + 719468) % 146097 - (z + 719468) % 146097 / 1460 +
      (z + 719468) % 146097 / 36524 - (z + 719468) % 146097 / 146096) / 365 / 400
      = 0 := by omega
  unfold civilFromDays daysFromCivil
  simp only []
  split_ifs <;>
    simp only [add_zero, sub_zero,
      show ∀ x : ℤ, x + 3 + -3 = x from fun x => by ring,
      show ∀ x : ℤ, x + -9 + 9 = x from fun x => by ring,
      show ∀ x : ℤ, x + 1 - 1 = x from fun x => by ring,
      show ∀ a b : ℤ, (a + b * 400) / 400 = a / 400 + b from
        fun a b => Int.add_mul_ediv_right a b (by norm_num),
      hy400, zero_add,
      show ∀ x y : ℤ, x + y * 400 - y * 400 = x from fun x y => by ring] <;>
    omega

/-- `Date.parse('1950-01-01T00:00:00Z')` (`app.js` line 253): the 1950
epoch in Unix milliseconds. -/
def epoch1950 : ℤ := -631152000000

/-- The UTC components `(y, m, d, hh, mm, ss, ms)` of instant `t` in Unix
milliseconds — what `toISOString` renders. -/
def msToDate (t : ℤ) : ℤ × ℤ × ℤ × ℤ × ℤ × ℤ × ℤ :=
  ((civilFromDays (t / 86400000)).1, (civilFromDays (t / 86400000)).2.1,
    (civilFromDays (t / 86400000)).2.2,
    (t / 3600000) % 24, (t / 60000) % 60, (t / 1000) % 60, t % 1000)

/-- ECMA-262 `MakeDay` with month rollover: `Date.UTC`'s day computation
for a 0-based month index. -/
def makeDay (y m0 d : ℤ) : ℤ :=
  daysFromCivil (y + m0 / 12) (m0 % 12 + 1) 1 + (d - 1)

/-- `Date.UTC(y, m0, d, hh, mm, ss)` in Unix milliseconds, including
ECMA-262's `MakeFullYear` two-digit-year rule: an integral year argument in
`0`–`99` is interpreted as `1900 + y`. -/
def dateUTC (y m0 d hh mm ss : ℤ) : ℤ :=
  makeDay (if 0 ≤ y ∧ y ≤ 99 then 1900 + y else y) m0 d * 86400000
    + (hh * 3600000 + mm * 60000 + ss * 1000)

/-- Fidelity check of the two-digit-year rule: `Date.UTC(50, 0, 1)` is
1950-01-01, the same instant as `Date.UTC(1950, 0, 1)`. -/
theorem dateUTC_two_digit_year :
    dateUTC 50 0 1 0 0 0 = -631152000000 ∧
      dateUTC 50 0 1 0 0 0 = dateUTC 1950 0 1 0 0 0 := by
  constructor <;> decide

set_option maxHeartbeats 2000000 in
theorem civilFromDays_bounds (z : ℤ) :
    1 ≤ (civilFromDays z).2.1 ∧ (civilFromDays z).2.1 ≤ 12 ∧
      1 ≤ (civilFromDays z).2.2 ∧ (civilFromDays z).2.2 ≤ 31 := by
  have hdoy := doy_bounds ((z + 719468) % 146097) (by omega) (by omega)
  unfold civilFromDays
  simp only []
  split_ifs <;> omega

set_option maxHeartbeats 1000000 in
theorem makeDay_eq (y m d : ℤ) (h1 : 1 ≤ m) (h2 : m ≤ 12) :
    makeDay y (m - 1) d = daysFromCivil y m d := by
  unfold makeDay
  rw [show (m - 1) / 12 = 0 by omega, show (m - 1) % 12 = m - 1 by omega]
  unfold daysFromCivil
  simp only [add_zero, show m - 1 + 1 = m from by ring]
  split_ifs <;> omega

theorem hms_recompose (t : ℤ) :
    t / 86400000 * 86400000 + ((t / 3600000) % 24 * 3600000 +
      (t / 60000) % 60 * 60000 + (t / 1000) % 60 * 1000) = t - t % 1000 := by
  omega

/-- Two zero-padded decimal digits (faithful for `0 ≤ n < 100`). -/
def pad2 (n : ℤ) : List ℕ := [n.toNat / 10 % 10, n.toNat % 10]

/-- Three zero-padded decimal digits. -/
def pad3 (n : ℤ) : List ℕ := [n.toNat / 100 % 10, n.toNat / 10 % 10, n.toNat % 10]

/-- Four zero-padded decimal digits (faithful for `0 ≤ n < 10000`). -/
def pad4 (n : ℤ) : List ℕ :=
  [n.toNat / 1000 % 10, n.toNat / 100 % 10, n.toNat / 10 % 10, n.toNat % 10]

/-- The digit content of `new Date(t).toISOString()` for years in
`[0, 9999]`: `YYYY MM DD HH MM SS mmm` — 17 digits once the non-digit
punctuation is stripped (`app.js` line 261).  Outside that year range
`toISOString` uses an expanded `±YYYYYY` form this model does not cover. -/
def isoDigits (t : ℤ) : List ℕ :=
  pad4 (msToDate t).1 ++ pad2 (msToDate t).2.1 ++ pad2 (msToDate t).2.2.1 ++
    pad2 (msToDate t).2.2.2.1 ++ pad2 (msToDate t).2.2.2.2.1 ++
    pad2 (msToDate t).2.2.2.2.2.1 ++ pad3 (msToDate t).2.2.2.2.2.2

/-- Numeric value of a digit sequence (`parseInt` on an all-digit
string). -/
def digitsVal (l : List ℕ) : ℕ := l.foldl (fun a d => a * 10 + d) 0

/-- `parseInt(digits.slice(a, b))` on a digit sequence. -/
def sliceVal (l : List ℕ) (a b : ℕ) : ℕ := digitsVal ((l.drop a).take (b - a))

/-- The calendar-fallback formula of `loadFloatsStreaming` (`app.js` lines
262–272): at least 8 digits parsed as `YYYYMMDD` with optional `HHMMSS`,
recomposed by `Date.UTC`, re-expressed as days since the 1950 epoch. -/
def juldFromDigits (digits : List ℕ) : Option ℚ :=
  if 8 ≤ digits.length then
    let y : ℤ := (sliceVal digits 0 4 : ℤ)
    let m : ℤ := (sliceVal digits 4 6 : ℤ) - 1
    let d : ℤ := (sliceVal digits 6 8 : ℤ)
    let hh : ℤ := if 10 ≤ digits.length then (sliceVal digits 8 10 : ℤ) else 0
    let mm : ℤ := if 12 ≤ digits.length then (sliceVal digits 10 12 : ℤ) else 0
    let ss : ℤ := if 14 ≤ digits.length then (sliceVal digits 12 14 : ℤ) else 0
    let dtMs := dateUTC y m d hh mm ss
    some ((((dtMs - epoch1950 : ℤ) : ℚ)) / 86400000)
  else none

set_option maxHeartbeats 2000000 in
theorem juldFromDigits_isoDigits (t : ℤ)
    (hy1 : 100 ≤ (msToDate t).1) (hy2 : (msToDate t).1 ≤ 9999) :
    juldFromDigits (isoDigits t)
      = some ((((t - t % 1000 - epoch1950 : ℤ) : ℚ)) / 86400000) := by
  obtain ⟨hm1, hm2, hd1, hd2⟩ := civilFromDays_bounds (t / 86400000)
  have hh1 : 0 ≤ (t / 3600000) % 24 := by omega
  have hh2 : (t / 3600000) % 24 ≤ 23 := by omega
  have hmm1 : 0 ≤ (t / 60000) % 60 := by omega
  have hmm2 : (t / 60000) % 60 ≤ 59 := by omega
  have hss1 : 0 ≤ (t / 1000) % 60 := by omega
  have hss2 : (t / 1000) % 60 ≤ 59 := by omega
  set y := (msToDate t).1 with hydef
  set m := (msToDate t).2.1 with hmdef
  set d := (msToDate t).2.2.1 with hddef
  set hh := (msToDate t).2.2.2.1 with hhhdef
  set mm := (msToDate t).2.2.2.2.1 with hmmdef
  set ss := (msToDate t).2.2.2.2.2.1 with hssdef
  set ms := (msToDate t).2.2.2.2.2.2 with hmsdef
  have hmv : m = (civilFromDays (t / 86400000)).2.1 := rfl
  have hdv : d = (civilFromDays (t / 86400000)).2.2 := rfl
  have hhv : hh = (t / 3600000) % 24 := rfl
  have hmmv : mm = (t / 60000) % 60 := rfl
  have hssv : ss = (t / 1000) % 60 := rfl
  have hmsv : ms = t % 1000 := rfl
  have hiso : isoDigits t = pad4 y ++ pad2 m ++ pad2 d ++ pad2 hh ++ pad2 mm
      ++ pad2 ss ++ pad3 ms := rfl
  rw [hiso]
  have hsy : (sliceVal (pad4 y ++ pad2 m ++ pad2 d ++ pad2 hh ++ pad2 mm
      ++ pad2 ss ++ pad3 ms) 0 4 : ℤ) = y := by
    show ((((0 * 10 + y.toNat / 1000 % 10) * 10 + y.toNat / 100 % 10) * 10
        + y.toNat / 10 % 10) * 10 + y.toNat % 10 : ℤ) = y
    omega
  have hsm : (sliceVal (pad4 y ++ pad2 m ++ pad2 d ++ pad2 hh ++ pad2 mm
      ++ pad2 ss ++ pad3 ms) 4 6 : ℤ) = m := by
    show (((0 * 10 + m.toNat / 10 % 10) * 10 + m.toNat % 10 : ℕ) : ℤ) = m
    omega
  have hsd : (sliceVal (pad4 y ++ pad2 m ++ pad2 d ++ pad2 hh ++ pad2 mm
      ++ pad2 ss ++ pad3 ms) 6 8 : ℤ) = d := by
    show (((0 * 10 + d.toNat / 10 % 10) * 10 + d.toNat % 10 : ℕ) : ℤ) = d
    omega
  have hshh : (sliceVal (pad4 y ++ pad2 m ++ pad2 d ++ pad2 hh ++ pad2 mm
      ++ pad2 ss ++ pad3 ms) 8 10 : ℤ) = hh := by
    show (((0 * 10 + hh.toNat / 10 % 10) * 10 + hh.toNat % 10 : ℕ) : ℤ) = hh
    omega
  have hsmm : (sliceVal (pad4 y ++ pad2 m ++ pad2 d ++ pad2 hh ++ pad2 mm
      ++ pad2 ss ++ pad3 ms) 10 12 : ℤ) = mm := by
    show (((0 * 10 + mm.toNat / 10 % 10) * 10 + mm.toNat % 10 : ℕ) : ℤ) = mm
    omega
  have hsss : (sliceVal (pad4 y ++ pad2 m ++ pad2 d ++ pad2 hh ++ pad2 mm
      ++ pad2 ss ++ pad3 ms) 12 14 : ℤ) = ss := by
    show (((0 * 10 + ss.toNat / 10 % 10) * 10 + ss.toNat % 10 : ℕ) : ℤ) = ss
    omega
  have hlen : (pad4 y ++ pad2 m ++ pad2 d ++ pad2 hh ++ pad2 mm
      ++ pad2 ss ++ pad3 ms).length = 17 := rfl
  unfold juldFromDigits
  rw [if_pos (by rw [hlen]; norm_num)]
  simp only [hlen]
  rw [if_pos (by norm_num), if_pos (by norm_num), if_pos (by norm_num)]
  rw [hsy, hsm, hsd, hshh, hsmm, hsss]
  have hyv : y = (civilFromDays (t / 86400000)).1 := rfl
  have hdt : dateUTC y (m - 1) d hh mm ss = t - t % 1000 := by
    unfold dateUTC
    rw [if_neg (by omega), makeDay_eq y m d hm1 hm2, hyv, hmv, hdv,
      daysFromCivil_civilFromDays (t / 86400000), hhv, hmmv, hssv]
    exact hms_recompose t
  rw [hdt]

/-- ECMA-262 `ToIntegerOrInfinity`: truncation toward zero, applied by the
`Date` constructor to its millisecond argument. -/
def ratTrunc (q : ℚ) : ℤ := if q < 0 then ⌈q⌉ else ⌊q⌋

/-- The instant of a julian-day value (`app.js` line 258):
`new Date(epoch1950 + juld * dayMs)`. -/
def juldToMs (J : ℚ) : ℤ := ratTrunc ((epoch1950 : ℚ) + J * 86400000)

/-- The round trip of claim C6: julian day to ISO instant, instant to
digit string, digit string back through the calendar-fallback formula. -/
def juldRoundTrip (J : ℚ) : Option ℚ := juldFromDigits (isoDigits (juldToMs J))

/-- Truncation moves an instant by strictly less than one millisecond. -/
theorem ratTrunc_close (q : ℚ) :
    -1 < (ratTrunc q : ℚ) - q ∧ (ratTrunc q : ℚ) - q < 1 := by
  unfold ratTrunc
  by_cases h : q < 0
  · rw [if_pos h]
    constructor
    · have := Int.le_ceil q
      linarith
    · have := Int.ceil_lt_add_one q
      linarith
  · rw [if_neg h]
    constructor
    · have := Int.sub_one_lt_floor q
      linarith
    · have := Int.floor_le q
      linarith

set_option maxHeartbeats 1000000 in
/-- Claim C6 (amended): for a julian-day value whose instant falls in a
UTC year `100`–`9999`, re-deriving the julian day from the instant's digit
string via the calendar-fallback formula reproduces `J` to within one
second's worth of days (strictly less than `1000 / 86 400 000` days): the
fallback truncates the sub-second part, which dominates any floating-point
error.  For years `0`–`99` the fallback's `Date.UTC` call applies the
two-digit-year rule (`MakeFullYear`: the parsed year becomes `1900 + y`),
and outside `0`–`9999` `toISOString` switches to an expanded `±YYYYYY`
digit form, so the round trip is off by centuries there. -/
theorem juld_roundtrip_second (J : ℚ)
    (hy1 : 100 ≤ (msToDate (juldToMs J)).1)
    (hy2 : (msToDate (juldToMs J)).1 ≤ 9999) :
    ∃ J', juldRoundTrip J = some J' ∧ |J' - J| < 1000 / 86400000 := by
  set t := juldToMs J with htdef
  refine ⟨(((t - t % 1000 - epoch1950 : ℤ) : ℚ)) / 86400000,
    juldFromDigits_isoDigits t hy1 hy2, ?_⟩
  have hms1 : (0 : ℤ) ≤ t % 1000 := by omega
  have hms2 : (t : ℤ) % 1000 ≤ 999 := by omega
  have htr := ratTrunc_close ((epoch1950 : ℚ) + J * 86400000)
  have htr' : -1 < (t : ℚ) - ((epoch1950 : ℚ) + J * 86400000) ∧
      (t : ℚ) - ((epoch1950 : ℚ) + J * 86400000) < 1 := htr
  have hres : (((t - t % 1000 - epoch1950 : ℤ) : ℚ)) / 86400000 - J
      = ((t : ℚ) - ((t : ℤ) % 1000 : ℤ) - (epoch1950 : ℚ) - J * 86400000)
          / 86400000 := by
    push_cast
    ring
  rw [hres]
  rw [abs_div]
  rw [show |(86400000 : ℚ)| = 86400000 by norm_num]
  rw [div_lt_div_iff_of_pos_right (by norm_num)]
  rw [abs_lt]
  have hc1 : ((t % 1000 : ℤ) : ℚ) ≤ 999 := by exact_mod_cast hms2
  have hc2 : (0 : ℚ) ≤ ((t % 1000 : ℤ) : ℚ) := by exact_mod_cast hms1
  constructor <;> [linarith [htr'.1]; linarith [htr'.2]]

theorem juld_cex_ms : juldToMs (1 / 172800) = -631151999500 := by
  unfold juldToMs ratTrunc
  have harg : (epoch1950 : ℚ) + (1 / 172800) * 86400000
      = ((-631151999500 : ℤ) : ℚ) := by
    norm_num [epoch1950]
  rw [harg, if_pos (by norm_num), Int.ceil_intCast]

/-- Claim C6 (counterexample): the julian-day value `1/172800` (half a
second past the 1950 epoch) round-trips to exactly `0` — the value is lost
entirely (relative error `1`), so the round trip does not reproduce `J`
within floating-point tolerance. -/
theorem juld_roundtrip_cex :
    juldRoundTrip (1 / 172800) = some 0 ∧ (1 / 172800 : ℚ) ≠ 0 := by
  constructor
  · show juldFromDigits (isoDigits (juldToMs (1 / 172800))) = some 0
    rw [juld_cex_ms]
    have h2 := juldFromDigits_isoDigits (-631151999500) (by decide) (by decide)
    have h3 : ((-631151999500 : ℤ) - (-631151999500 : ℤ) % 1000 - epoch1950)
        = 0 := by decide
    rw [h3] at h2
    rw [h2]
    norm_num
  · norm_num

theorem juld_half_ms : juldToMs (1 / 2) = -631108800000 := by
  unfold juldToMs ratTrunc
  have harg : (epoch1950 : ℚ) + (1 / 2) * 86400000
      = ((-631108800000 : ℤ) : ℚ) := by
    norm_num [epoch1950]
  rw [harg, if_pos (by norm_num), Int.ceil_intCast]

/-- Witness for the amended claim C6 at `J = 1/2` (noon, 1950-01-01). -/
theorem juld_roundtrip_second_witness :
    100 ≤ (msToDate (juldToMs (1 / 2))).1 ∧
      (msToDate (juldToMs (1 / 2))).1 ≤ 9999 ∧
      ∃ J', juldRoundTrip (1 / 2) = some J' ∧ |J' - 1 / 2| < 1000 / 86400000 := by
  have h1 : 100 ≤ (msToDate (juldToMs (1 / 2))).1 := by
    rw [juld_half_ms]; decide
  have h2 : (msToDate (juldToMs (1 / 2))).1 ≤ 9999 := by
    rw [juld_half_ms]; decide
  exact ⟨h1, h2, juld_roundtrip_second (1 / 2) h1 h2⟩

/-! ## Numeric coercion and the row pipeline (claims C8, and C6's source
context)

`toNumber` (`app.js` lines 109–113) is `parseFloat(String(value).trim())`
guarded by `Number.isFinite`.  `parseFloat` is a host built-in, modelled
from the ECMA-262 `StrDecimalLiteral` grammar: longest valid numeric
prefix, `NaN` when there is none; numbers idealized as rationals (a double
overflowing to `Infinity` on a huge exponent is not modelled). -/

/-- Result of the `parseFloat` built-in: `NaN`, a signed infinity (the
`Infinity` literal), or a finite value. -/
inductive JsNumVal where
  | nan
  | inf (neg : Bool)
  | fin (q : ℚ)

/-- Numeric value of a decimal digit character sequence. -/
def charDigitsVal (l : JStr) : ℕ :=
  l.foldl (fun a c => a * 10 + (c.toNat - '0'.toNat)) 0

/-- Exponent digits (at least one required, else the exponent part does not
participate: `parseFloat('1e+') = 1`). -/
def expDigits (neg : Bool) (l : JStr) : ℤ :=
  let ds := l.takeWhile Char.isDigit
  if ds.isEmpty then 0
  else if neg then -(charDigitsVal ds : ℤ) else (charDigitsVal ds : ℤ)

/-- Exponent after the `e`/`E`: optional sign, then digits. -/
def parseExpSigned (l : JStr) : ℤ :=
  match l with
  | '+' :: r => expDigits false r
  | '-' :: r => expDigits true r
  | r => expDigits false r

/-- Optional exponent part of a decimal literal. -/
def parseExpPart (l : JStr) : ℤ :=
  match l with
  | 'e' :: r => parseExpSigned r
  | 'E' :: r => parseExpSigned r
  | _ => 0

/-- Body of `parseFloat` after the optional sign: the `Infinity` literal, or
integer digits, optional fraction digits, optional exponent; `NaN` when no
mantissa digit is present. -/
def parseFloatBody (neg : Bool) (l : JStr) : JsNumVal :=
  if "Infinity".toList.isPrefixOf l then .inf neg
  else
    let ip := l.takeWhile Char.isDigit
    let l2 := l.dropWhile Char.isDigit
    let fp := match l2 with
      | '.' :: r => r.takeWhile Char.isDigit
      | _ => []
    let l3 := match l2 with
      | '.' :: r => r.dropWhile Char.isDigit
      | r => r
    if ip.isEmpty && fp.isEmpty then .nan
    else
      let mant : ℚ := (charDigitsVal ip : ℚ)
        + (charDigitsVal fp : ℚ) / (10 : ℚ) ^ fp.length
      let q : ℚ := mant * (10 : ℚ) ^ parseExpPart l3
      .fin (if neg then -q else q)

/-- The `parseFloat` built-in: skip leading whitespace, optional sign, then
the decimal-literal body. -/
def parseFloatJS (l0 : JStr) : JsNumVal :=
  let l1 := l0.dropWhile Char.isWhitespace
  match l1 with
  | '-' :: r => parseFloatBody true r
  | '+' :: r => parseFloatBody false r
  | r => parseFloatBody false r

/-- `String.prototype.trim` (ASCII-idealized whitespace). -/
def jsTrim (l : JStr) : JStr :=
  ((l.dropWhile Char.isWhitespace).reverse.dropWhile Char.isWhitespace).reverse

/-- `toNumber` (`app.js` lines 109–113): parse the trimmed string; a value
that does not parse to a finite number (no parse, `Infinity`) is `null`.
The callers always pass a string (the result of `get`), so the
`undefined`/`null` early return does not arise. -/
def toNumber (value : JStr) : Option ℚ :=
  match parseFloatJS (jsTrim value) with
  | .fin q => some q
  | _ => none

/-- Alias lists of the row callback (`app.js` lines 236–260). -/
def platformAliases : List JStr :=
  ["PLATFORM_NUMBER".toList, "platform_number".toList, "argo_id".toList,
    "platformid".toList]

/-- Longitude aliases (`app.js` line 240). -/
def lonAliases : List JStr :=
  ["LONGITUDE".toList, "longitude".toList, "lon".toList, "lng".toList]

/-- Pressure aliases (`app.js` line 243). -/
def presAliases : List JStr :=
  ["PRES".toList, "pres".toList, "pressure".toList]

/-- Temperature aliases (`app.js` line 244). -/
def tempAliases : List JStr :=
  ["TEMP".toList, "temp".toList, "temperature".toList]

/-- Salinity aliases (`app.js` line 245). -/
def psalAliases : List JStr :=
  ["PSAL".toList, "psal".toList, "salinity".toList]

/-- Oxygen aliases (`app.js` line 246). -/
def doxyAliases : List JStr :=
  ["DOXY".toList, "doxy".toList, "oxygen".toList]

/-- Nitrate aliases (`app.js` line 247). -/
def nitrateAliases : List JStr :=
  ["NITRATE".toList, "nitrate".toList, "NITRATE_ADJUSTED".toList,
    "nitrate_adjusted".toList]

/-- pH aliases (`app.js` line 248). -/
def phAliases : List JStr :=
  ["PH_IN_SITU_TOTAL".toList, "ph_in_situ_total".toList,
    "PH_IN_SITU_TOTAL_ADJUSTED".toList, "ph".toList]

/-- Organization aliases (`app.js` line 249). -/
def orgAliases : List JStr :=
  ["DATA_CENTRE".toList, "data_centre".toList, "ORGANIZATION".toList,
    "organization".toList, "ORG".toList, "org".toList]

/-- Julian-day aliases (`app.js` line 252). -/
def juldAliases : List JStr :=
  ["JULD".toList, "juld".toList, "JULD_ADJUSTED".toList]

/-- Calendar-date-string aliases (`app.js` line 260). -/
def dateAliases : List JStr :=
  ["DATE_CREATION".toList, "date_creation".toList, "DATE".toList,
    "date".toList, "DATE_UPDATE".toList]

/-- Cycle-number aliases (`app.js` line 274). -/
def cycleAliases : List JStr :=
  ["CYCLE_NUMBER".toList, "cycle_number".toList, "cycle".toList]

/-- The `dtMs` instant of the calendar fallback (`app.js` line 270),
alongside `juldFromDigits`. -/
def dtMsFromDigits (digits : List ℕ) : Option ℤ :=
  if 8 ≤ digits.length then
    some (dateUTC (sliceVal digits 0 4 : ℤ) ((sliceVal digits 4 6 : ℤ) - 1)
      (sliceVal digits 6 8 : ℤ)
      (if 10 ≤ digits.length then (sliceVal digits 8 10 : ℤ) else 0)
      (if 12 ≤ digits.length then (sliceVal digits 10 12 : ℤ) else 0)
      (if 14 ≤ digits.length then (sliceVal digits 12 14 : ℤ) else 0))
  else none

/-- Time-axis reconstruction (`app.js` lines 252–277): direct julian-day
field; else the digit fallback; else the cycle number as a surrogate. -/
def juldAndDate (r : List (JStr × JStr)) : Option ℚ × Option ℤ :=
  match toNumber (get r juldAliases) with
  | some j => (some j, some (juldToMs j))
  | none =>
    let digits := ((get r dateAliases).filter Char.isDigit).map
      (fun c => c.toNat - '0'.toNat)
    if 8 ≤ digits.length then
      (juldFromDigits digits, dtMsFromDigits digits)
    else
      match toNumber (get r cycleAliases) with
      | some c => (some c, none)
      | none => (none, none)

/-- The row callback of `loadFloatsStreaming` (`app.js` lines 224–290):
platform required (else drop), latitude/longitude required numeric (else
drop), every other numeric field optional, time axis reconstructed. -/
def processRow (r : List (JStr × JStr)) : Option (JStr × Entry) :=
  let platform := jsTrim (get r platformAliases)
  if platform = [] then none
  else
    match toNumber (get r latAliases), toNumber (get r lonAliases) with
    | some lat, some lon =>
      let jd := juldAndDate r
      some (platform,
        { latitude := lat
          longitude := lon
          pres := toNumber (get r presAliases)
          juld := jd.1
          temp := toNumber (get r tempAliases)
          psal := toNumber (get r psalAliases)
          doxy := toNumber (get r doxyAliases)
          nitrate := toNumber (get r nitrateAliases)
          ph := toNumber (get r phAliases)
          organization := jsTrim (get r orgAliases)
          dateIso := jd.2 })
    | _, _ => none

/-- Claim C8: a string value of a numeric column that fails to parse to a
finite number makes that field absent — not zero, not an error — and does
not drop the row: with a valid platform and numeric latitude/longitude, the
row still produces an entry, whose pressure is `none`. -/
theorem toNumber_absent_keeps_row (r : List (JStr × JStr)) (la lo : ℚ)
    (hp : jsTrim (get r platformAliases) ≠ [])
    (hlat : toNumber (get r latAliases) = some la)
    (hlon : toNumber (get r lonAliases) = some lo)
    (hpres : toNumber (get r presAliases) = none) :
    ∃ e, processRow r = some (jsTrim (get r platformAliases), e) ∧
      e.pres = none ∧ e.latitude = la ∧ e.longitude = lo := by
  unfold processRow
  rw [if_neg hp]
  simp only [hlat, hlon]
  exact ⟨_, rfl, hpres, rfl, rfl⟩

/-- Concrete row for the claim C8 witness: a non-numeric pressure value. -/
def c8Row : List (JStr × JStr) :=
  [("PLATFORM_NUMBER".toList, "1001".toList),
    ("LATITUDE".toList, "10".toList),
    ("LONGITUDE".toList, "20".toList),
    ("PRES".toList, "abc".toList)]

/-- Witness for claim C8: the row with `PRES = 'abc'` survives with an
absent pressure. -/
theorem toNumber_absent_keeps_row_witness :
    ∃ e, processRow c8Row = some (jsTrim (get c8Row platformAliases), e) ∧
      e.pres = none ∧ e.latitude = 10 ∧ e.longitude = 20 :=
  toNumber_absent_keeps_row c8Row 10 20 (by decide)
    (by
      have h1 : get c8Row latAliases = "10".toList := by decide
      rw [h1]
      show some ((((10 : ℕ) : ℚ) + ((0 : ℕ) : ℚ) / (10 : ℚ) ^ (0 : ℕ))
          * (10 : ℚ) ^ ((0 : ℤ))) = some (10 : ℚ)
      norm_num)
    (by
      have h1 : get c8Row lonAliases = "20".toList := by decide
      rw [h1]
      show some ((((20 : ℕ) : ℚ) + ((0 : ℕ) : ℚ) / (10 : ℚ) ^ (0 : ℕ))
          * (10 : ℚ) ^ ((0 : ℤ))) = some (20 : ℚ)
      norm_num)
    (by decide)

end Samudra
